import Mathlib

/-!
Verification of the MINIXCompat process-management core
(src/MINIXCompat/MINIXCompat_Processes.c) against its specification.

The C module is embedded shallowly: the process table is a Lean list of
entries, the process-global variables are fields of an explicit state
record, and host-side effects (fork outcomes, host wait results, host
errno translation) are passed in as explicit data.
-/

namespace MINIXCompat

/-- One entry of the MINIX/host process-id mapping table
(struct minix_process_mapping in the C source).  Pids are modelled as
unbounded integers; the host pid is pid_t, the MINIX pid is int16_t. -/
structure ProcEntry where
  host_pid : Int
  minix_pid : Int
  deriving Repr, DecidableEq

/-- The zero (free) table entry, as produced by calloc. -/
def zeroEntry : ProcEntry := ⟨0, 0⟩

/-- Process-global state of the subsystem: the table
(MINIXCompat_ProcessTable together with its size, which is the list
length), the next MINIX pid to allocate (minix_next_pid), and the two
cached identity globals (minix_self_pid, minix_self_ppid). -/
structure ProcState where
  table : List ProcEntry
  next_pid : Int
  self_pid : Int
  self_ppid : Int
  deriving Repr, DecidableEq

/-- Read a table slot; out-of-range reads give the zero entry (this
models only in-range accesses in the C code, which always indexes below
the table size). -/
def entryAt (t : List ProcEntry) (i : Nat) : ProcEntry :=
  t.getD i zeroEntry

/-- MINIXCompat_Processes_Initialize: a calloc-zeroed 32-entry table with
slot 0 = (self host pid, 7) and slot 1 = (parent host pid, 6), next pid 8.
The cached identity globals start out zero (C statics). -/
def Processes_InitState (host_self_pid host_self_ppid : Int) : ProcState :=
  { table := ((List.replicate 32 zeroEntry).set 0 ⟨host_self_pid, 7⟩).set 1
      ⟨host_self_ppid, 6⟩
    next_pid := 8
    self_pid := 0
    self_ppid := 0 }

/-- MINIXCompat_Processes_MINIXProcessForHostProcess: linear scan for the
first entry with the given host pid; -1 on a miss. -/
def MINIXProcessForHostProcess (t : List ProcEntry) (host_pid : Int) : Int :=
  match t.find? (fun e => e.host_pid == host_pid) with
  | some e => e.minix_pid
  | none => -1

/-- MINIXCompat_Processes_HostProcessForMINIXProcess: linear scan for the
first entry with the given MINIX pid; -1 on a miss. -/
def HostProcessForMINIXProcess (t : List ProcEntry) (minix_pid : Int) : Int :=
  match t.find? (fun e => e.minix_pid == minix_pid) with
  | some e => e.host_pid
  | none => -1

/-- MINIXCompat_Processes_NextFreeTableEntry: scan slots 2.. for a free
entry (host_pid == 0); if none, grow the table by half its size with
zeroed entries and return the first new slot (the old size).  Returns the
slot index together with the (possibly grown) table, since the C function
mutates the global table when it grows. -/
def NextFreeTableEntry (t : List ProcEntry) : Nat × List ProcEntry :=
  match (t.drop 2).findIdx? (fun e => e.host_pid == 0) with
  | some i => (i + 2, t)
  | none => (t.length, t ++ List.replicate (t.length / 2) zeroEntry)

/-- MINIXCompat_Processes_RemoveMINIXProcess: zero both fields of the
first entry whose minix_pid matches. -/
def RemoveMINIXProcess (t : List ProcEntry) (minix_pid : Int) : List ProcEntry :=
  match t.findIdx? (fun e => e.minix_pid == minix_pid) with
  | some i => t.set i zeroEntry
  | none => t

/-- Outcome of the host fork(2) call inside MINIXCompat_Processes_fork:
failure with a host errno, parent path with the new child host pid, or
child path with the child's own host pid (what getpid() returns there). -/
inductive ForkOutcome where
  | fail (host_errno : Nat)
  | parent (child_host_pid : Int)
  | child (own_host_pid : Int)
  deriving Repr, DecidableEq

/-- MINIXCompat_Processes_fork, with the host fork outcome and the
host-to-MINIX errno translator passed in explicitly.  Returns the new
state and the int16 result value.  The free slot and the new MINIX pid
are reserved before the host fork; on failure minix_next_pid is
decremented back (net unchanged) but a table growth performed by the
slot reservation persists. -/
def Processes_fork (st : ProcState) (tr : Nat → Int) (o : ForkOutcome) :
    ProcState × Int :=
  let kt := NextFreeTableEntry st.table
  let k := kt.1
  let t := kt.2
  let new_minix_process := st.next_pid
  match o with
  | .fail e =>
      ({ st with table := t, next_pid := st.next_pid }, -(tr e))
  | .parent new_host_process =>
      ({ st with
          table := t.set k ⟨new_host_process, new_minix_process⟩
          next_pid := new_minix_process + 1 }, new_minix_process)
  | .child own_host_pid =>
      let t1 := t.set k (entryAt t 1)
      let t2 := t1.set 1 (entryAt t1 0)
      let t3 := t2.set 0 ⟨own_host_pid, new_minix_process⟩
      ({ table := t3
         next_pid := new_minix_process + 1
         self_pid := new_minix_process
         self_ppid := st.self_pid }, 0)

/-- MINIXCompat_Processes_GetProcessIDs: lazily populate the cached
identity globals from table slots 0 and 1 (only when both caches are
still zero), then report them.  Returns ((pid, ppid), new state). -/
def GetProcessIDs (st : ProcState) : (Int × Int) × ProcState :=
  let st1 :=
    if st.self_pid = 0 ∧ st.self_ppid = 0 then
      { st with
          self_pid := (entryAt st.table 0).minix_pid
          self_ppid := (entryAt st.table 1).minix_pid }
    else st
  ((st1.self_pid, st1.self_ppid), st1)

-- MARK: - wait

/-- A MINIX wait status (union minix_wait_stat): the cooked view, with
the low byte exitstat and the high byte sigstat of the 16-bit raw word
(little-endian host layout, as the spec states). -/
structure WaitStat where
  exitstat : Nat
  sigstat : Nat
  deriving Repr, DecidableEq

/-- The raw int16 view of a WaitStat on a little-endian host:
low byte exitstat, high byte sigstat, reinterpreted as a signed 16-bit
value. -/
def WaitStat.raw (w : WaitStat) : Int :=
  let v := w.exitstat % 256 + 256 * (w.sigstat % 256)
  if v < 32768 then (v : Int) else (v : Int) - 65536

/-- MINIXCompat_WIFEXITED: a MINIX status is classified exited iff its
sigstat byte is zero. -/
def MINIX_WIFEXITED (w : WaitStat) : Bool :=
  w.sigstat % 256 == 0

/-- MINIXCompat_WIFSIGNALED: a MINIX status is classified signaled iff
its exitstat byte is zero. -/
def MINIX_WIFSIGNALED (w : WaitStat) : Bool :=
  w.exitstat % 256 == 0

/-- Classification of a host wait status, abstracting the host macros
WIFEXITED/WEXITSTATUS, WIFSTOPPED/WSTOPSIG and WIFSIGNALED/WTERMSIG that
the C code branches on (they are host-platform collaborators, not code of
this module). -/
inductive HostStat where
  | exited (code : Nat)
  | stopped (stopsig : Nat)
  | signaled (termsig : Nat)
  | other
  deriving Repr, DecidableEq

/-- Modelled from the spec: the MINIX signal numbering is 1..16 in the
order HUP, INT, QUIT, ILL, TRAP, ABRT, UNUSED, FPE, KILL, USR1, SEGV,
USR2, PIPE, ALRM, TERM, STKFLT (the minix_SIG* constants live in a
header that is not part of the sources at hand).  SIGKILL is number 9. -/
def minix_SIGKILL : Nat := 9

/-- MINIXCompat_Processes_MINIXStatForHostStat: encode a host wait status
as a MINIX wait status.  The C code checks WIFEXITED, then WIFSTOPPED,
then WIFSIGNALED, and otherwise pretends the child was killed by SIGKILL.
Byte stores truncate modulo 256 (uint8_t fields). -/
def MINIXStatForHostStat (host_stat : HostStat) : WaitStat :=
  match host_stat with
  | .exited code => { exitstat := code % 256, sigstat := 0 }
  | .stopped stopsig => { exitstat := stopsig % 256, sigstat := 0o177 }
  | .signaled termsig => { exitstat := termsig % 256, sigstat := 0 }
  | .other => { exitstat := minix_SIGKILL, sigstat := 0 }

/-- Modelled from the spec: the host EINTR errno value (host errno.h is a
platform collaborator; only its identity matters to the retry loop). -/
def hostEINTR : Nat := 4

/-- One result of the host wait(2) call: a host errno on failure, or the
reaped host pid together with its host status on success. -/
inductive HostWaitResult where
  | err (host_errno : Nat)
  | reaped (host_pid : Int) (host_stat : HostStat)
  deriving Repr, DecidableEq

/-- The retry loop of MINIXCompat_Processes_wait: keep calling the host
wait while it fails with EINTR.  The successive host results are supplied
as a list; none is returned if the list runs out (the real loop would
still be calling the host). -/
def waitRetryLoop : List HostWaitResult → Option HostWaitResult
  | [] => none
  | .err e :: rest =>
      if e = hostEINTR then waitRetryLoop rest else some (.err e)
  | .reaped p s :: _ => some (.reaped p s)

/-- MINIXCompat_Processes_wait, with the host wait results and the errno
translator supplied explicitly.  Returns (result pid, new table, value
written through minix_stat_loc if any); none if the supplied host results
were all EINTR. -/
def Processes_wait (tr : Nat → Int) (results : List HostWaitResult)
    (t : List ProcEntry) : Option (Int × List ProcEntry × Option Int) :=
  match waitRetryLoop results with
  | none => none
  | some (.err e) => some (-(tr e), t, none)
  | some (.reaped host_pid host_stat) =>
      let minix_pid := MINIXProcessForHostProcess t host_pid
      let minix_stat := MINIXStatForHostStat host_stat
      let t1 :=
        if MINIX_WIFEXITED minix_stat || MINIX_WIFSIGNALED minix_stat then
          RemoveMINIXProcess t minix_pid
        else t
      some (minix_pid, t1, some minix_stat.raw)

-- MARK: - brk

/-- Modelled from the spec: MINIXCompat_Executable_Limit is 0x00FE0000
(the constant is declared by the executable-loader collaborator). -/
def Executable_Limit : Nat := 0x00FE0000

/-- Modelled from the spec: the MINIX ENOMEM errno code (declared in the
errors header, not among the sources at hand; only its identity matters). -/
def minix_ENOMEM : Int := 12

/-- MINIXCompat_Processes_brk.  The current break is lazily initialized
from the loader's initial break when it is still zero; a request is
accepted iff initial_break <= request < Executable_Limit.  Returns
(int16 result, value written through minix_resulting_addr, new current
break). -/
def Processes_brk (initial_break : Nat) (current_break : Nat)
    (minix_requested_addr : Nat) : Int × Nat × Nat :=
  let cur := if current_break = 0 then initial_break else current_break
  if minix_requested_addr < Executable_Limit ∧
      initial_break ≤ minix_requested_addr then
    (0, minix_requested_addr, minix_requested_addr)
  else
    (-minix_ENOMEM, 0xFFFFFFFF, cur)

-- MARK: - Signal Handling

/-- Host signal numbers, modelling the host signal.h collaborator with
the usual Linux values.  The development relies only on these constants
being pairwise distinct and strictly positive, which POSIX guarantees on
every host. -/
def hostSIGHUP : Int := 1

/-- Host SIGINT. -/
def hostSIGINT : Int := 2

/-- Host SIGQUIT. -/
def hostSIGQUIT : Int := 3

/-- Host SIGILL. -/
def hostSIGILL : Int := 4

/-- Host SIGTRAP. -/
def hostSIGTRAP : Int := 5

/-- Host SIGABRT. -/
def hostSIGABRT : Int := 6

/-- Host SIGFPE. -/
def hostSIGFPE : Int := 8

/-- Host SIGKILL. -/
def hostSIGKILL : Int := 9

/-- Host SIGUSR1. -/
def hostSIGUSR1 : Int := 10

/-- Host SIGSEGV. -/
def hostSIGSEGV : Int := 11

/-- Host SIGUSR2. -/
def hostSIGUSR2 : Int := 12

/-- Host SIGPIPE. -/
def hostSIGPIPE : Int := 13

/-- Host SIGALRM. -/
def hostSIGALRM : Int := 14

/-- Host SIGTERM. -/
def hostSIGTERM : Int := 15

/-- Host SIGXCPU. -/
def hostSIGXCPU : Int := 24

/-- Host SIGXFSZ. -/
def hostSIGXFSZ : Int := 25

/-- MINIXCompat_Processes_HostSignalForMINIXSignal: the fixed map from
MINIX signal numbers 1..16 (HUP, INT, QUIT, ILL, TRAP, ABRT, UNUSED,
FPE, KILL, USR1, SEGV, USR2, PIPE, ALRM, TERM, STKFLT) to host signals.
SIGUNUSED is proxied onto host SIGXFSZ and SIGSTKFLT onto host SIGXCPU.
The C switch has no default case (callers assert the range); out-of-range
arguments are mapped to 0 here. -/
def HostSignalForMINIXSignal (minix_signal : Nat) : Int :=
  match minix_signal with
  | 1 => hostSIGHUP
  | 2 => hostSIGINT
  | 3 => hostSIGQUIT
  | 4 => hostSIGILL
  | 5 => hostSIGTRAP
  | 6 => hostSIGABRT
  | 7 => hostSIGXFSZ
  | 8 => hostSIGFPE
  | 9 => hostSIGKILL
  | 10 => hostSIGUSR1
  | 11 => hostSIGSEGV
  | 12 => hostSIGUSR2
  | 13 => hostSIGPIPE
  | 14 => hostSIGALRM
  | 15 => hostSIGTERM
  | 16 => hostSIGXCPU
  | _ => 0

/-- MINIXCompat_Processes_MINIXSignalForHostSignal: the inverse map; any
host signal outside the mapped set yields 0 (MINIX does not support it). -/
def MINIXSignalForHostSignal (host_signal : Int) : Nat :=
  if host_signal = hostSIGHUP then 1
  else if host_signal = hostSIGINT then 2
  else if host_signal = hostSIGQUIT then 3
  else if host_signal = hostSIGILL then 4
  else if host_signal = hostSIGTRAP then 5
  else if host_signal = hostSIGABRT then 6
  else if host_signal = hostSIGXFSZ then 7
  else if host_signal = hostSIGFPE then 8
  else if host_signal = hostSIGKILL then 9
  else if host_signal = hostSIGUSR1 then 10
  else if host_signal = hostSIGSEGV then 11
  else if host_signal = hostSIGUSR2 then 12
  else if host_signal = hostSIGPIPE then 13
  else if host_signal = hostSIGALRM then 14
  else if host_signal = hostSIGTERM then 15
  else if host_signal = hostSIGXCPU then 16
  else 0

/-- minix_SIG_DFL (0x00000000). -/
def minix_SIG_DFL : Nat := 0x00000000

/-- minix_SIG_IGN (0x00000001). -/
def minix_SIG_IGN : Nat := 0x00000001

/-- minix_SIG_ERR (0xFFFFFFFF). -/
def minix_SIG_ERR : Nat := 0xFFFFFFFF

/-- An effect on the emulated 68K CPU, abstracting the
MINIXCompat_CPU_Push_32 / Push_16 / SetPC collaborators used by signal
frame injection.  A push records the pushed value with its width via the
constructor; SetPC records the new program counter. -/
inductive CPUAction where
  | push32 (v : Nat)
  | push16 (v : Nat)
  | setPC (v : Nat)
  deriving Repr, DecidableEq

/-- The signal-delivery state: the MINIX handler table
(minix_signal_handlers, indexed 0..16 with index 0 unused), the pending
flags (MINIXCompat_Processes_PendingSignals), the aggregate pending flag
(MINIXCompat_Processes_HasPendingSignal), and the emulated CPU's current
PC and SR. -/
structure SigState where
  handlers : List Nat
  pending : List Bool
  hasPending : Bool
  pc : Nat
  sr : Nat
  deriving Repr, DecidableEq

/-- MINIXCompat_Processes_HandlePendingSignal: consult the handler table;
IGN, DFL and ERR do nothing (the DFL default action is an unimplemented
TODO in the source); any other value is a guest 68K handler address, for
which the emulated frame is injected: push the current PC (32-bit), push
the current SR (16-bit), push the signal number (16-bit), set the PC to
the handler address.  Returns the new state and the CPU actions
performed, in order. -/
def HandlePendingSignal (st : SigState) (minix_signal : Nat) :
    SigState × List CPUAction :=
  let handler := st.handlers.getD minix_signal 0
  if handler = minix_SIG_IGN then (st, [])
  else if handler = minix_SIG_DFL then (st, [])
  else if handler = minix_SIG_ERR then (st, [])
  else
    ({ st with pc := handler },
      [.push32 st.pc, .push16 st.sr, .push16 minix_signal, .setPC handler])

/-- One iteration of the drain loop of
MINIXCompat_Processes_HandlePendingSignals: if the signal is pending,
clear its flag and handle it, accumulating the CPU actions. -/
def drainStep (acc : SigState × List CPUAction) (minix_signal : Nat) :
    SigState × List CPUAction :=
  let st := acc.1
  if st.pending.getD minix_signal false then
    let stCleared := { st with pending := st.pending.set minix_signal false }
    let r := HandlePendingSignal stCleared minix_signal
    (r.1, acc.2 ++ r.2)
  else acc

/-- MINIXCompat_Processes_HandlePendingSignals: if anything is pending,
clear the aggregate flag and process signals 1..16 in ascending order. -/
def HandlePendingSignals (st : SigState) : SigState × List CPUAction :=
  if st.hasPending then
    (List.range' 1 16).foldl drainStep ({ st with hasPending := false }, [])
  else (st, [])

/-- MINIXCompat_Processes_RegisterPendingSignal (the trampoline body):
translate the host signal; when it is a MINIX signal, set its pending
flag and the aggregate flag. -/
def RegisterPendingSignal (st : SigState) (host_signal : Int) : SigState :=
  let minix_signal := MINIXSignalForHostSignal host_signal
  if minix_signal ≠ 0 then
    { st with hasPending := true, pending := st.pending.set minix_signal true }
  else st

-- MARK: - kill

/-- Modelled from the spec: the MINIX EINVAL errno code. -/
def minix_EINVAL : Int := 22

/-- Modelled from the spec: the MINIX ESRCH errno code. -/
def minix_ESRCH : Int := 3

/-- MINIXCompat_Processes_kill, with the host kill(2) outcome supplied
explicitly (none = success 0, some e = failure with host errno e) and
the errno translator passed in.  Mirrors the C control flow: an
unmappable signal yields -EINVAL, a pid without a live table entry
yields -ESRCH, a failed host kill yields the negated translated errno,
otherwise 0. -/
def Processes_kill (t : List ProcEntry) (tr : Nat → Int)
    (kill_outcome : Option Nat) (minix_pid : Int) (minix_signal : Nat) : Int :=
  let host_signal := HostSignalForMINIXSignal minix_signal
  if host_signal ≤ 0 then -minix_EINVAL
  else
    let host_pid :=
      if minix_pid > 0 then HostProcessForMINIXProcess t minix_pid
      else minix_pid
    if host_pid ≤ 0 then -minix_ESRCH
    else
      match kill_outcome with
      | some e => -(tr e)
      | none => 0

-- MARK: - Exec argument marshalling

/-- The round_up_32 macro of MINIXCompat_Arguments_Initialize, verbatim:
(x) + (4 - ((x) % 4)).  Note that for x already a multiple of 4 this
yields x + 4, although the macro's own comment claims 0 = 0. -/
def round_up_32 (x : Nat) : Nat := x + (4 - x % 4)

/-- The rounding the macro's comment (and the spec) describe: round up to
the next multiple of 4, leaving multiples of 4 unchanged. -/
def round_up_to_4_spec (x : Nat) : Nat := x + (4 - x % 4) % 4

/-- The strncmp("MINIX_", s, 6) == 0 test: the first six bytes of s are
the bytes of the literal MINIX_ (77 73 78 73 88 95). -/
def startsWithMINIX (s : List Nat) : Bool :=
  s.take 6 == [77, 73, 78, 73, 88, 95]

/-- Total content size for the argv strings: each contributes
round_up_32(strlen+1). -/
def contentSizeArgv (host_argv : List (List Nat)) : Nat :=
  (host_argv.map (fun s => round_up_32 (s.length + 1))).sum

/-- Total content size for the envp strings: only the MINIX_-prefixed
ones count; each contributes round_up_32(strlen+1-6) for the stripped
string. -/
def contentSizeEnvp (host_envp : List (List Nat)) : Nat :=
  ((host_envp.filter startsWithMINIX).map
    (fun s => round_up_32 (s.length + 1 - 6))).sum

/-- Overwrite buf at positions off..off+|s| with the bytes of s.  The
bytes after the string stay as they were (they are already zero in the
calloc-zeroed content buffer, matching strncpy's zero padding). -/
def writeBytes (buf : List Nat) (off : Nat) (s : List Nat) : List Nat :=
  buf.take off ++ s ++ buf.drop (off + s.length)

/-- Running state of the marshalling loops: the pointer block built so
far (as 32-bit words, in order), the content buffer, and the current
content offset. -/
structure MarshalState where
  ptrs : List Nat
  content : List Nat
  offset : Nat
  deriving Repr, DecidableEq

/-- The argv loop of MINIXCompat_Arguments_Initialize: copy each string
into the content buffer at the current offset, emit its emulated address
(stack base + pointer block size + offset), and advance the offset by
round_up_32(strlen+1). -/
def marshalArgv (stack_base block_size : Nat) (ms : MarshalState)
    (host_argv : List (List Nat)) : MarshalState :=
  host_argv.foldl
    (fun ms s =>
      { ptrs := ms.ptrs ++ [stack_base + block_size + ms.offset]
        content := writeBytes ms.content ms.offset s
        offset := ms.offset + round_up_32 (s.length + 1) }) ms

/-- The envp loop of MINIXCompat_Arguments_Initialize: only the
MINIX_-prefixed strings are marshalled, with the six-byte prefix
stripped, advancing by round_up_32(strlen+1-6). -/
def marshalEnvp (stack_base block_size : Nat) (ms : MarshalState)
    (host_envp : List (List Nat)) : MarshalState :=
  host_envp.foldl
    (fun ms s =>
      if startsWithMINIX s then
        { ptrs := ms.ptrs ++ [stack_base + block_size + ms.offset]
          content := writeBytes ms.content ms.offset (s.drop 6)
          offset := ms.offset + round_up_32 (s.length + 1 - 6) }
      else ms) ms

/-- MINIXCompat_Arguments_Initialize: build the pointer block (argc,
argv pointers, NULL, envp pointers, NULL; as 32-bit words) and the
content buffer that are copied to the stack base and just above the
pointer block respectively.  Returns (pointer block, content). -/
def Arguments_Init (stack_base : Nat) (host_argc : Nat)
    (host_argv : List (List Nat)) (host_envc : Nat)
    (host_envp : List (List Nat)) : List Nat × List Nat :=
  let count := 1 + (host_argc + 1) + (host_envc + 1)
  let block_size := count * 4
  let content_size := contentSizeArgv host_argv + contentSizeEnvp host_envp
  let ms0 : MarshalState :=
    { ptrs := [host_argc], content := List.replicate content_size 0, offset := 0 }
  let ms1 := marshalArgv stack_base block_size ms0 host_argv
  let ms2 := { ms1 with ptrs := ms1.ptrs ++ [0] }
  let ms3 := marshalEnvp stack_base block_size ms2 host_envp
  (ms3.ptrs ++ [0], ms3.content)

/-- Big-endian serialization of a 32-bit word (htonl). -/
def be32 (v : Nat) : List Nat :=
  [v / 2 ^ 24 % 256, v / 2 ^ 16 % 256, v / 2 ^ 8 % 256, v % 256]

/-- The bytes of the whole marshalled region as written at the stack
base: the big-endian pointer block immediately followed by the content. -/
def marshalledRegion (out : List Nat × List Nat) : List Nat :=
  (out.1.map be32).flatten ++ out.2

/-- MINIXCompat_Processes_ExecuteWithHostParams, restricted to its
argument-marshalling effect: drop argv[0], count the MINIX_-prefixed
environment entries, and marshal.  Returns (pointer block, content). -/
def ExecuteWithHostParams (stack_base : Nat) (argc : Nat)
    (argv : List (List Nat)) (envp : List (List Nat)) : List Nat × List Nat :=
  let host_argc := argc - 1
  let host_argv := argv.drop 1
  let host_envc := (envp.filter startsWithMINIX).length
  Arguments_Init stack_base host_argc host_argv host_envc envp

/-- Read the NUL-terminated string stored at a given offset of a content
buffer. -/
def stringAt (content : List Nat) (off : Nat) : List Nat :=
  (content.drop off).takeWhile (fun b => b ≠ 0)

/-- The argv of scenario S6: the bytes of prog and a. -/
def s6_argv : List (List Nat) := [[112, 114, 111, 103], [97]]

/-- The envp of scenario S6: the bytes of PATH=/ and MINIX_HOME=/u. -/
def s6_envp : List (List Nat) :=
  [[80, 65, 84, 72, 61, 47],
    [77, 73, 78, 73, 88, 95, 72, 79, 77, 69, 61, 47, 117]]

-- MARK: - Operation sequences over the process table

/-- One table-mutating operation, for reasoning about arbitrary operation
sequences: a fork taking the parent, child, or failure path (with the
host pid, resp. host errno, supplied), or the removal a successful wait
performs. -/
inductive ProcOp where
  | forkParent (child_host_pid : Int)
  | forkChild (own_host_pid : Int)
  | forkFail (host_errno : Nat)
  | waitRemove (minix_pid : Int)
  deriving Repr, DecidableEq

/-- Apply one operation to the state (the errno translator is irrelevant
to the table, so the zero translator is used for the failure path). -/
def stepOp (st : ProcState) (op : ProcOp) : ProcState :=
  match op with
  | .forkParent hp => (Processes_fork st (fun _ => 0) (.parent hp)).1
  | .forkChild hp => (Processes_fork st (fun _ => 0) (.child hp)).1
  | .forkFail e => (Processes_fork st (fun _ => 0) (.fail e)).1
  | .waitRemove m => { st with table := RemoveMINIXProcess st.table m }

/-- Apply a sequence of operations, left to right. -/
def runOps (st : ProcState) : List ProcOp → ProcState
  | [] => st
  | op :: ops => runOps (stepOp st op) ops

/-- The hypothesis the claim places on one operation: a host fork/getpid
returns a host pid that is nonzero and distinct from every host pid in
the table (in particular from every live one).  Failure and removal need
nothing. -/
def freshOk (st : ProcState) : ProcOp → Bool
  | .forkParent hp => hp != 0 && st.table.all (fun e => e.host_pid != hp)
  | .forkChild hp => hp != 0 && st.table.all (fun e => e.host_pid != hp)
  | .forkFail _ => true
  | .waitRemove _ => true

/-- The freshness hypothesis along a whole operation sequence. -/
def freshOps (st : ProcState) : List ProcOp → Bool
  | [] => true
  | op :: ops => freshOk st op && freshOps (stepOp st op) ops

/-- Uniqueness for an indexed family of entries: no two live entries (an
entry is live iff its host_pid is nonzero) share a host pid or a MINIX
pid. -/
def FnUnique (E : Nat → ProcEntry) : Prop :=
  ∀ i j : Nat, i ≠ j →
    (E i).host_pid ≠ 0 → (E j).host_pid ≠ 0 →
    (E i).host_pid ≠ (E j).host_pid ∧
    (E i).minix_pid ≠ (E j).minix_pid

/-- The uniqueness invariant of the claim, read over the table slots.
Out-of-range indices read as the zero entry, which is not live. -/
def TableUnique (t : List ProcEntry) : Prop :=
  FnUnique (entryAt t)

/-- The full inductive invariant: uniqueness, every entry's MINIX pid
below the allocation counter, and a table of at least two slots. -/
def ProcInv (st : ProcState) : Prop :=
  TableUnique st.table ∧
  (∀ i : Nat, (entryAt st.table i).minix_pid < st.next_pid) ∧
  2 ≤ st.table.length

-- MARK: - Helper lemmas about table reads

lemma entryAt_of_ge (t : List ProcEntry) (i : Nat) (h : t.length ≤ i) :
    entryAt t i = zeroEntry := by
  simp [entryAt, List.getD_eq_getElem?_getD, List.getElem?_eq_none h]

lemma entryAt_set (t : List ProcEntry) (k : Nat) (v : ProcEntry) (i : Nat) :
    entryAt (t.set k v) i = if k = i ∧ k < t.length then v else entryAt t i := by
  simp only [entryAt, List.getD_eq_getElem?_getD, List.getElem?_set]
  by_cases h1 : k = i
  · subst h1
    by_cases h2 : k < t.length
    · simp [h2]
    · simp [h2, List.getElem?_eq_none (Nat.le_of_not_lt h2)]
  · simp [h1]

lemma entryAt_append_replicate (t : List ProcEntry) (n i : Nat) :
    entryAt (t ++ List.replicate n zeroEntry) i = entryAt t i := by
  simp only [entryAt, List.getD_eq_getElem?_getD, List.getElem?_append,
    List.getElem?_replicate]
  by_cases h : i < t.length
  · simp [h]
  · simp only [h, if_false, List.getElem?_eq_none (Nat.le_of_not_lt h)]
    split <;> simp

lemma entryAt_replicate_zero (n i : Nat) :
    entryAt (List.replicate n zeroEntry) i = zeroEntry := by
  simp only [entryAt, List.getD_eq_getElem?_getD, List.getElem?_replicate]
  split <;> simp

/-- What NextFreeTableEntry guarantees on a table of at least two slots:
the returned slot is at index 2 or above and within the (possibly grown)
table, and the grown table reads the same as the old one everywhere. -/
lemma nextFree_spec (t : List ProcEntry) (h2 : 2 ≤ t.length) :
    2 ≤ (NextFreeTableEntry t).1 ∧
    (NextFreeTableEntry t).1 < (NextFreeTableEntry t).2.length ∧
    2 ≤ (NextFreeTableEntry t).2.length ∧
    ∀ i, entryAt (NextFreeTableEntry t).2 i = entryAt t i := by
  cases hf : (t.drop 2).findIdx? (fun e => e.host_pid == 0) with
  | some i =>
      have heq : NextFreeTableEntry t = (i + 2, t) := by
        unfold NextFreeTableEntry
        rw [hf]
      have hi : i < (t.drop 2).length :=
        (List.findIdx?_eq_some_iff_findIdx_eq.mp hf).1
      rw [List.length_drop] at hi
      rw [heq]
      dsimp only
      exact ⟨by omega, by omega, by omega, fun _ => rfl⟩
  | none =>
      have heq : NextFreeTableEntry t =
          (t.length, t ++ List.replicate (t.length / 2) zeroEntry) := by
        unfold NextFreeTableEntry
        rw [hf]
      rw [heq]
      refine ⟨h2, ?_, ?_, fun i => entryAt_append_replicate t _ i⟩
      · simp only [List.length_append, List.length_replicate]
        omega
      · simp only [List.length_append, List.length_replicate]
        omega

/-- Pointwise description of the child-path table rewrite: with the free
slot k at index 2 or above, the rewritten table reads v at slot 0, the
old slot 0 at slot 1, the old slot 1 at slot k, and is unchanged
elsewhere. -/
lemma entryAt_childTable (t : List ProcEntry) (k : Nat) (v : ProcEntry)
    (hk2 : 2 ≤ k) (hklen : k < t.length) (i : Nat) :
    entryAt (((t.set k (entryAt t 1)).set 1
        (entryAt (t.set k (entryAt t 1)) 0)).set 0 v) i =
      if i = 0 then v
      else if i = 1 then entryAt t 0
      else if i = k then entryAt t 1
      else entryAt t i := by
  simp only [entryAt_set, List.length_set]
  split_ifs <;> first | rfl | omega

/-- Abstract form of the parent-path step: overwriting the (dead or not)
slot k with a fresh entry whose host pid occurs nowhere and whose MINIX
pid is the allocation bound preserves uniqueness. -/
lemma fnUnique_parentStep (E : Nat → ProcEntry) (n hp : Int) (k : Nat)
    (hU : FnUnique E) (hB : ∀ i, (E i).minix_pid < n)
    (hf : ∀ i, (E i).host_pid ≠ hp) :
    FnUnique (fun i => if i = k then ⟨hp, n⟩ else E i) := by
  intro i j hij hi hj
  simp only at hi hj ⊢
  by_cases hik : i = k <;> by_cases hjk : j = k <;>
    simp only [hik, hjk, if_true, if_false, reduceIte] at hi hj ⊢
  · omega
  · refine ⟨Ne.symm (hf j), ?_⟩
    have := hB j
    omega
  · refine ⟨hf i, ?_⟩
    have := hB i
    omega
  · exact hU i j hij hi hj

/-- Abstract form of the child-path step: slot 0 becomes a fresh entry,
slot 1 takes the old slot 0, slot k (at index 2 or above) takes the old
slot 1, the rest is unchanged; uniqueness is preserved. -/
lemma fnUnique_childStep (E : Nat → ProcEntry) (n hp : Int) (k : Nat)
    (hk : 2 ≤ k)
    (hU : FnUnique E) (hB : ∀ i, (E i).minix_pid < n)
    (hf : ∀ i, (E i).host_pid ≠ hp) :
    FnUnique (fun i =>
      if i = 0 then ⟨hp, n⟩
      else if i = 1 then E 0
      else if i = k then E 1
      else E i) := by
  intro i j hij hi hj
  have hk0 : k ≠ 0 := by omega
  have hk1 : k ≠ 1 := by omega
  simp only at hi hj ⊢
  by_cases hi0 : i = 0 <;> by_cases hi1 : i = 1 <;> by_cases hik : i = k <;>
    by_cases hj0 : j = 0 <;> by_cases hj1 : j = 1 <;> by_cases hjk : j = k <;>
    (try simp [hi0, hi1, hik, hj0, hj1, hjk, hk0, hk1] at hi hj ⊢) <;>
    first
    | omega
    | (refine ⟨Ne.symm (hf _), ?_⟩
       first
       | (have hq := hB 0; omega)
       | (have hq := hB 1; omega)
       | (have hq := hB j; omega))
    | (refine ⟨hf _, ?_⟩
       first
       | (have hq := hB 0; omega)
       | (have hq := hB 1; omega)
       | (have hq := hB i; omega))
    | exact hU _ _ (by omega) hi hj

lemma fnUnique_congr (E F : Nat → ProcEntry) (h : ∀ i, E i = F i)
    (hF : FnUnique F) : FnUnique E := by
  intro i j hij hi hj
  simp only [h] at hi hj ⊢
  exact hF i j hij hi hj

/-- The freshness check of freshOk, read pointwise over all slot reads
(out-of-range reads are the zero entry, whose host pid 0 differs from the
nonzero fresh pid). -/
lemma fresh_pointwise (t : List ProcEntry) (hp : Int) (hne : hp ≠ 0)
    (hall : t.all (fun e => e.host_pid != hp) = true) :
    ∀ i, (entryAt t i).host_pid ≠ hp := by
  intro i
  by_cases h : i < t.length
  · have hmem : t.getD i zeroEntry ∈ t := by
      rw [List.getD_eq_getElem?_getD, List.getElem?_eq_getElem h]
      exact List.getElem_mem h
    have := List.all_eq_true.mp hall _ hmem
    simpa [entryAt, bne_iff_ne] using this
  · rw [entryAt_of_ge t i (Nat.le_of_not_lt h)]
    simpa [zeroEntry] using Ne.symm hne

/-- The allocation counter is positive whenever every slot's MINIX pid
lies below it (look at any out-of-range slot). -/
lemma next_pos (st : ProcState)
    (hB : ∀ i, (entryAt st.table i).minix_pid < st.next_pid) :
    0 < st.next_pid := by
  have := hB st.table.length
  rw [entryAt_of_ge st.table st.table.length (Nat.le_refl _)] at this
  simpa [zeroEntry] using this

/-- Each operation preserves the inductive invariant, under its freshness
hypothesis. -/
lemma procInv_step (st : ProcState) (op : ProcOp) (h : ProcInv st)
    (hok : freshOk st op = true) : ProcInv (stepOp st op) := by
  obtain ⟨hU, hB, hlen⟩ := h
  cases op with
  | forkParent hp =>
      simp only [freshOk, Bool.and_eq_true, bne_iff_ne] at hok
      have hfresh := fresh_pointwise st.table hp hok.1 hok.2
      obtain ⟨hk2, hklen, hlen2, hsame⟩ := nextFree_spec st.table hlen
      simp only [stepOp, Processes_fork]
      set kt := NextFreeTableEntry st.table with hkt
      refine ⟨?_, ?_, ?_⟩
      · have hpoint : ∀ i, entryAt (kt.2.set kt.1 ⟨hp, st.next_pid⟩) i =
            if i = kt.1 then ⟨hp, st.next_pid⟩ else entryAt st.table i := by
          intro i
          rw [entryAt_set]
          by_cases hki : kt.1 = i
          · subst hki
            rw [if_pos ⟨rfl, hklen⟩, if_pos rfl]
          · rw [if_neg (fun hh => hki hh.1), hsame i,
              if_neg (fun hh => hki hh.symm)]
        exact fnUnique_congr _ _ hpoint
          (fnUnique_parentStep (entryAt st.table) st.next_pid hp kt.1 hU hB
            hfresh)
      · intro i
        show (entryAt (kt.2.set kt.1 ⟨hp, st.next_pid⟩) i).minix_pid <
          st.next_pid + 1
        rw [entryAt_set]
        by_cases hki : kt.1 = i ∧ kt.1 < kt.2.length
        · rw [if_pos hki]
          show st.next_pid < st.next_pid + 1
          omega
        · rw [if_neg hki, hsame i]
          have := hB i
          omega
      · show 2 ≤ (kt.2.set kt.1 ⟨hp, st.next_pid⟩).length
        rw [List.length_set]
        exact hlen2
  | forkChild hp =>
      simp only [freshOk, Bool.and_eq_true, bne_iff_ne] at hok
      have hfresh := fresh_pointwise st.table hp hok.1 hok.2
      obtain ⟨hk2, hklen, hlen2, hsame⟩ := nextFree_spec st.table hlen
      simp only [stepOp, Processes_fork]
      set kt := NextFreeTableEntry st.table with hkt
      have hpoint : ∀ i,
          entryAt (((kt.2.set kt.1 (entryAt kt.2 1)).set 1
            (entryAt (kt.2.set kt.1 (entryAt kt.2 1)) 0)).set 0
              ⟨hp, st.next_pid⟩) i =
          if i = 0 then ⟨hp, st.next_pid⟩
          else if i = 1 then entryAt st.table 0
          else if i = kt.1 then entryAt st.table 1
          else entryAt st.table i := by
        intro i
        rw [entryAt_childTable kt.2 kt.1 _ hk2 hklen]
        split_ifs <;> first | rfl | exact hsame _
      refine ⟨?_, ?_, ?_⟩
      · exact fnUnique_congr _ _ hpoint
          (fnUnique_childStep (entryAt st.table) st.next_pid hp kt.1 hk2 hU hB
            hfresh)
      · intro i
        rw [hpoint i]
        have h0 := hB 0
        have h1 := hB 1
        have hi := hB i
        split_ifs <;> simp <;> omega
      · simp only [List.length_set]
        exact hlen2
  | forkFail e =>
      obtain ⟨hk2, hklen, hlen2, hsame⟩ := nextFree_spec st.table hlen
      simp only [stepOp, Processes_fork]
      refine ⟨fnUnique_congr _ _ (fun i => hsame i) hU, ?_, hlen2⟩
      intro i
      rw [hsame i]
      exact hB i
  | waitRemove m =>
      simp only [stepOp, RemoveMINIXProcess]
      have hpos := next_pos st hB
      cases hf : st.table.findIdx? (fun e => e.minix_pid == m) with
      | none => exact ⟨hU, hB, hlen⟩
      | some i0 =>
          have hpoint : ∀ i, entryAt (st.table.set i0 zeroEntry) i =
              if i0 = i ∧ i0 < st.table.length then zeroEntry
              else entryAt st.table i := fun i => entryAt_set st.table i0 _ i
          refine ⟨?_, ?_, ?_⟩
          · intro i j hij hi hj
            rw [hpoint i] at hi ⊢
            rw [hpoint j] at hj ⊢
            by_cases hci : i0 = i ∧ i0 < st.table.length
            · rw [if_pos hci] at hi
              simp [zeroEntry] at hi
            · by_cases hcj : i0 = j ∧ i0 < st.table.length
              · rw [if_pos hcj] at hj
                simp [zeroEntry] at hj
              · rw [if_neg hci] at hi ⊢
                rw [if_neg hcj] at hj ⊢
                exact hU i j hij hi hj
          · intro i
            rw [hpoint i]
            split_ifs
            · simpa [zeroEntry] using hpos
            · exact hB i
          · rw [List.length_set]
            exact hlen

/-- The inductive invariant holds along every operation sequence whose
host pids are fresh. -/
lemma procInv_runOps (st : ProcState) (ops : List ProcOp) (h : ProcInv st)
    (hok : freshOps st ops = true) : ProcInv (runOps st ops) := by
  induction ops generalizing st with
  | nil => exact h
  | cons op ops ih =>
      simp only [freshOps, Bool.and_eq_true] at hok
      exact ih (stepOp st op) (procInv_step st op h hok.1) hok.2

/-- The freshly initialized state satisfies the inductive invariant when
the two initial host pids differ. -/
lemma procInv_init (hp0 hp1 : Int) (hne : hp0 ≠ hp1) :
    ProcInv (Processes_InitState hp0 hp1) := by
  have hpoint : ∀ i, entryAt (Processes_InitState hp0 hp1).table i =
      if i = 0 then ⟨hp0, 7⟩ else if i = 1 then ⟨hp1, 6⟩ else zeroEntry := by
    intro i
    simp only [Processes_InitState]
    rw [entryAt_set, entryAt_set]
    simp only [List.length_set, List.length_replicate]
    rw [entryAt_replicate_zero]
    split_ifs <;> first | rfl | omega
  refine ⟨?_, ?_, ?_⟩
  · intro i j hij hi hj
    rw [hpoint i] at hi ⊢
    rw [hpoint j] at hj ⊢
    split_ifs at hi hj ⊢ <;>
      first
      | omega
      | (exact absurd rfl hi)
      | (exact absurd rfl hj)
      | (exact ⟨hne, by simp⟩)
      | (exact ⟨Ne.symm hne, by simp⟩)
  · intro i
    rw [hpoint i]
    show _ < (8 : Int)
    split_ifs <;> simp [zeroEntry]
  · simp [Processes_InitState]

-- MARK: - Claim theorems

/-- Claim C1: for every sequence of table operations (starting from
init, with forks taking the parent, child, or failure path and
wait-driven removals), at every moment between operations no two live
entries of the ProcessTable (live iff host_pid is nonzero) share a
host_pid or a minix_pid, under the hypothesis that each host
fork/getpid returns a host pid distinct from every host pid already in
the table (and that the two initial host pids differ). -/
theorem claim_C1_table_uniqueness (hp0 hp1 : Int) (ops : List ProcOp)
    (hne : hp0 ≠ hp1)
    (hfresh : freshOps (Processes_InitState hp0 hp1) ops = true) :
    TableUnique (runOps (Processes_InitState hp0 hp1) ops).table :=
  (procInv_runOps _ ops (procInv_init hp0 hp1 hne) hfresh).1

/-- Witness for C1 at a concrete operation sequence: a parent-path fork,
a child-path fork, a wait removal and a failed fork. -/
theorem claim_C1_table_uniqueness_witness :
    ((100 : Int) ≠ 99 ∧
      freshOps (Processes_InitState 100 99)
        [ProcOp.forkParent 101, ProcOp.forkChild 102, ProcOp.waitRemove 8,
          ProcOp.forkFail 5] = true) ∧
    TableUnique (runOps (Processes_InitState 100 99)
      [ProcOp.forkParent 101, ProcOp.forkChild 102, ProcOp.waitRemove 8,
        ProcOp.forkFail 5]).table :=
  ⟨⟨by decide, by decide⟩,
    claim_C1_table_uniqueness 100 99 _ (by decide) (by decide)⟩

/-- Claim C2: after a successful fork returning 0 in the child, with k
the slot reserved before the host fork and new_minix_pid the pre-fork
allocated pid (the old next_pid), slot k holds the pre-fork contents of
slot 1, slot 1 holds the pre-fork contents of slot 0, and slot 0 holds
the child's own host pid paired with new_minix_pid; the cached self pid
becomes the new identity and the cached ppid the old cached self. -/
theorem claim_C2_fork_child_reparenting (st : ProcState) (tr : Nat → Int)
    (hp : Int) (hlen : 2 ≤ st.table.length) :
    (Processes_fork st tr (.child hp)).2 = 0 ∧
    entryAt (Processes_fork st tr (.child hp)).1.table
      (NextFreeTableEntry st.table).1 = entryAt st.table 1 ∧
    entryAt (Processes_fork st tr (.child hp)).1.table 1 =
      entryAt st.table 0 ∧
    entryAt (Processes_fork st tr (.child hp)).1.table 0 =
      ⟨hp, st.next_pid⟩ ∧
    (Processes_fork st tr (.child hp)).1.self_pid = st.next_pid ∧
    (Processes_fork st tr (.child hp)).1.self_ppid = st.self_pid := by
  obtain ⟨hk2, hklen, hlen2, hsame⟩ := nextFree_spec st.table hlen
  set kt := NextFreeTableEntry st.table with hkt
  have htab : (Processes_fork st tr (.child hp)).1.table =
      ((kt.2.set kt.1 (entryAt kt.2 1)).set 1
        (entryAt (kt.2.set kt.1 (entryAt kt.2 1)) 0)).set 0
          ⟨hp, st.next_pid⟩ := rfl
  refine ⟨rfl, ?_, ?_, ?_, rfl, rfl⟩
  · rw [htab, entryAt_childTable kt.2 kt.1 _ hk2 hklen]
    rw [if_neg (by omega), if_neg (by omega), if_pos rfl]
    exact hsame 1
  · rw [htab, entryAt_childTable kt.2 kt.1 _ hk2 hklen]
    rw [if_neg (by omega), if_pos rfl]
    exact hsame 0
  · rw [htab, entryAt_childTable kt.2 kt.1 _ hk2 hklen]
    rw [if_pos rfl]

/-- Witness for C2 at the freshly initialized state. -/
theorem claim_C2_fork_child_reparenting_witness :
    2 ≤ (Processes_InitState 100 99).table.length ∧
    ((Processes_fork (Processes_InitState 100 99) (fun _ => 0)
        (.child 101)).2 = 0 ∧
      entryAt (Processes_fork (Processes_InitState 100 99) (fun _ => 0)
          (.child 101)).1.table
        (NextFreeTableEntry (Processes_InitState 100 99).table).1 =
        entryAt (Processes_InitState 100 99).table 1 ∧
      entryAt (Processes_fork (Processes_InitState 100 99) (fun _ => 0)
          (.child 101)).1.table 1 =
        entryAt (Processes_InitState 100 99).table 0 ∧
      entryAt (Processes_fork (Processes_InitState 100 99) (fun _ => 0)
          (.child 101)).1.table 0 =
        ⟨101, (Processes_InitState 100 99).next_pid⟩ ∧
      (Processes_fork (Processes_InitState 100 99) (fun _ => 0)
          (.child 101)).1.self_pid = (Processes_InitState 100 99).next_pid ∧
      (Processes_fork (Processes_InitState 100 99) (fun _ => 0)
          (.child 101)).1.self_ppid =
        (Processes_InitState 100 99).self_pid) :=
  ⟨by decide,
    claim_C2_fork_child_reparenting (Processes_InitState 100 99) (fun _ => 0)
      101 (by decide)⟩

/-- Claim C10: get_process_ids serves its results from the cached
self/ppid globals, which are populated from table slots 0 and 1 only
when both caches are zero; when the child path of fork runs before any
get_process_ids call, the child caches ppid = 0 (the still-zero cached
self pid), so every later get_process_ids reports ppid 0 even though
table slot 1 records the parent MINIX pid 7. -/
theorem claim_C10_cached_ppid_zero :
    (∀ st : ProcState, ¬(st.self_pid = 0 ∧ st.self_ppid = 0) →
      GetProcessIDs st = ((st.self_pid, st.self_ppid), st)) ∧
    ((GetProcessIDs (Processes_fork (Processes_InitState 1000 999)
        (fun _ => 0) (.child 1001)).1).1 = (8, 0) ∧
      (GetProcessIDs (GetProcessIDs (Processes_fork
          (Processes_InitState 1000 999) (fun _ => 0)
            (.child 1001)).1).2).1 = (8, 0) ∧
      (entryAt (Processes_fork (Processes_InitState 1000 999) (fun _ => 0)
          (.child 1001)).1.table 1).minix_pid = 7) := by
  constructor
  · intro st h
    simp [GetProcessIDs, h]
  · refine ⟨by decide, by decide, by decide⟩

/-- Witness for the hypothesis-bearing half of C10, at a state with a
nonzero cached self pid. -/
theorem claim_C10_cached_ppid_zero_witness :
    ¬((⟨[], 8, 5, 4⟩ : ProcState).self_pid = 0 ∧
      (⟨[], 8, 5, 4⟩ : ProcState).self_ppid = 0) ∧
    GetProcessIDs ⟨[], 8, 5, 4⟩ = ((5, 4), ⟨[], 8, 5, 4⟩) :=
  ⟨by decide, claim_C10_cached_ppid_zero.1 ⟨[], 8, 5, 4⟩ (by decide)⟩

/-- Claim C3: when drain processes a pending MINIX signal s whose
handler-table entry h is none of SIG_DFL, SIG_IGN, SIG_ERR, it performs
exactly, in order: push the current PC (32-bit), push the current SR
(16-bit), push s (16-bit), set the PC to h.  In particular, draining a
pending SIGINT (2) with installed handler 0x00010000 pushes the signal
word 2 and leaves the PC at 0x00010000. -/
theorem claim_C3_signal_frame_injection (st : SigState) (s h : Nat)
    (hh : st.handlers.getD s 0 = h)
    (hdfl : h ≠ minix_SIG_DFL) (hign : h ≠ minix_SIG_IGN)
    (herr : h ≠ minix_SIG_ERR) :
    HandlePendingSignal st s =
      ({ st with pc := h },
        [.push32 st.pc, .push16 st.sr, .push16 s, .setPC h]) ∧
    ((HandlePendingSignals
        { handlers := (List.replicate 17 0).set 2 0x00010000
          pending := (List.replicate 17 false).set 2 true
          hasPending := true
          pc := 0x2000
          sr := 0x2700 }).2 =
      [.push32 0x2000, .push16 0x2700, .push16 2, .setPC 0x00010000] ∧
      (HandlePendingSignals
        { handlers := (List.replicate 17 0).set 2 0x00010000
          pending := (List.replicate 17 false).set 2 true
          hasPending := true
          pc := 0x2000
          sr := 0x2700 }).1.pc = 0x00010000) := by
  constructor
  · rw [HandlePendingSignal, hh, if_neg hign, if_neg hdfl, if_neg herr]
  · exact ⟨by decide, by decide⟩

/-- Witness for C3 at a concrete signal state. -/
theorem claim_C3_signal_frame_injection_witness :
    ((⟨(List.replicate 17 0).set 5 0x00020000, List.replicate 17 false,
        false, 0x3000, 0x2000⟩ : SigState).handlers.getD 5 0 = 0x00020000 ∧
      (0x00020000 : Nat) ≠ minix_SIG_DFL ∧
      (0x00020000 : Nat) ≠ minix_SIG_IGN ∧
      (0x00020000 : Nat) ≠ minix_SIG_ERR) ∧
    HandlePendingSignal
      ⟨(List.replicate 17 0).set 5 0x00020000, List.replicate 17 false,
        false, 0x3000, 0x2000⟩ 5 =
      (⟨(List.replicate 17 0).set 5 0x00020000, List.replicate 17 false,
          false, 0x00020000, 0x2000⟩,
        [.push32 0x3000, .push16 0x2000, .push16 5, .setPC 0x00020000]) :=
  ⟨⟨by decide, by decide, by decide, by decide⟩,
    (claim_C3_signal_frame_injection _ 5 0x00020000 (by decide) (by decide)
      (by decide) (by decide)).1⟩

/-- Claim C5: brk accepts a requested address iff the initial break is
at most the request and the request is below the executable limit
0x00FE0000; on accept it returns 0, writes the request back and makes it
the current break; on reject it returns -ENOMEM, writes 0xFFFFFFFF and
leaves the (lazily initialized) current break unchanged.  The spec's S4
scenario at initial break 0x00100000 is included. -/
theorem claim_C5_brk_bounds (initial_break current_break req : Nat) :
    (initial_break ≤ req ∧ req < Executable_Limit →
      Processes_brk initial_break current_break req = (0, req, req)) ∧
    (¬(initial_break ≤ req ∧ req < Executable_Limit) →
      Processes_brk initial_break current_break req =
        (-minix_ENOMEM, 0xFFFFFFFF,
          if current_break = 0 then initial_break else current_break)) ∧
    Processes_brk 0x00100000 0 0x00200000 = (0, 0x00200000, 0x00200000) ∧
    Processes_brk 0x00100000 0x00200000 0x00FE0000 =
      (-minix_ENOMEM, 0xFFFFFFFF, 0x00200000) ∧
    Processes_brk 0x00100000 0x00200000 0x00000100 =
      (-minix_ENOMEM, 0xFFFFFFFF, 0x00200000) := by
  refine ⟨?_, ?_, by decide, by decide, by decide⟩
  · intro hacc
    rw [Processes_brk, if_pos ⟨hacc.2, hacc.1⟩]
  · intro hrej
    rw [Processes_brk, if_neg (fun hc => hrej ⟨hc.2, hc.1⟩)]

/-- Witness for C5 on both sides of the bound. -/
theorem claim_C5_brk_bounds_witness :
    ((0x00100000 ≤ 0x00300000 ∧ (0x00300000 : Nat) < Executable_Limit) ∧
      Processes_brk 0x00100000 0x00150000 0x00300000 =
        (0, 0x00300000, 0x00300000)) ∧
    (¬(0x00100000 ≤ 0x00000100 ∧ (0x00000100 : Nat) < Executable_Limit) ∧
      Processes_brk 0x00100000 0x00150000 0x00000100 =
        (-minix_ENOMEM, 0xFFFFFFFF,
          if (0x00150000 : Nat) = 0 then 0x00100000 else 0x00150000)) :=
  ⟨⟨by decide,
      (claim_C5_brk_bounds 0x00100000 0x00150000 0x00300000).1 (by decide)⟩,
    ⟨by decide,
      (claim_C5_brk_bounds 0x00100000 0x00150000 0x00000100).2.1 (by decide)⟩⟩

/-- Claim C7 (a source bug): the round_up_32 macro is documented (and
specified) to round up to the next multiple of 4 leaving multiples of 4
unchanged, but its expression x + (4 - x % 4) adds 4 to every multiple
of 4; at strlen+1 = 4 (a string of length 3) the content offset advances
by 8, not 4.  For non-multiples of 4 the two agree. -/
theorem claim_C7_round_up_bug :
    round_up_32 4 = 8 ∧ round_up_to_4_spec 4 = 4 ∧
    round_up_32 5 = 8 ∧ round_up_to_4_spec 5 = 8 ∧
    round_up_32 0 = 4 ∧ round_up_to_4_spec 0 = 0 := by
  decide

/-- Claim C8: translating any MINIX signal in [1..16] to its host signal
and back yields the signal again; SIGUNUSED (7) goes through host
SIGXFSZ and SIGSTKFLT (16) through host SIGXCPU. -/
theorem claim_C8_signal_map_roundtrip :
    (∀ s : Nat, 1 ≤ s → s ≤ 16 →
      MINIXSignalForHostSignal (HostSignalForMINIXSignal s) = s) ∧
    HostSignalForMINIXSignal 7 = hostSIGXFSZ ∧
    HostSignalForMINIXSignal 16 = hostSIGXCPU := by
  refine ⟨?_, rfl, rfl⟩
  intro s h1 h16
  interval_cases s <;> decide

/-- Witness for C8 at SIGUNUSED. -/
theorem claim_C8_signal_map_roundtrip_witness :
    ((1 : Nat) ≤ 7 ∧ (7 : Nat) ≤ 16) ∧
    MINIXSignalForHostSignal (HostSignalForMINIXSignal 7) = 7 :=
  ⟨⟨by decide, by decide⟩,
    claim_C8_signal_map_roundtrip.1 7 (by decide) (by decide)⟩

/-- Claim C9: under kill's asserted preconditions (positive pid, signal
in [1..16]) the signal map yields a strictly positive host signal, so
the -EINVAL branch cannot be taken: kill returns 0, -ESRCH, or the
negated translated host errno. -/
theorem claim_C9_kill_einval_unreachable (t : List ProcEntry)
    (tr : Nat → Int) (kill_outcome : Option Nat) (minix_pid : Int)
    (minix_signal : Nat) (hpid : 0 < minix_pid)
    (h1 : 1 ≤ minix_signal) (h16 : minix_signal ≤ 16) :
    0 < HostSignalForMINIXSignal minix_signal ∧
    (Processes_kill t tr kill_outcome minix_pid minix_signal =
        -minix_ESRCH ∨
      Processes_kill t tr kill_outcome minix_pid minix_signal = 0 ∨
      ∃ e, kill_outcome = some e ∧
        Processes_kill t tr kill_outcome minix_pid minix_signal =
          -(tr e)) := by
  have hpos : 0 < HostSignalForMINIXSignal minix_signal := by
    interval_cases minix_signal <;> decide
  refine ⟨hpos, ?_⟩
  unfold Processes_kill
  rw [if_neg (by omega : ¬HostSignalForMINIXSignal minix_signal ≤ 0)]
  by_cases hh :
    (if minix_pid > 0 then HostProcessForMINIXProcess t minix_pid
      else minix_pid) ≤ 0
  · left
    rw [if_pos hh]
  · right
    rw [if_neg hh]
    cases kill_outcome with
    | none => left; rfl
    | some e => right; exact ⟨e, rfl, rfl⟩

/-- Witness for C9 with a singleton table and a successful host kill. -/
theorem claim_C9_kill_einval_unreachable_witness :
    ((0 : Int) < 8 ∧ (1 : Nat) ≤ 2 ∧ (2 : Nat) ≤ 16) ∧
    (0 < HostSignalForMINIXSignal 2 ∧
      (Processes_kill [⟨50, 8⟩] (fun _ => 0) none 8 2 = -minix_ESRCH ∨
        Processes_kill [⟨50, 8⟩] (fun _ => 0) none 8 2 = 0 ∨
        ∃ e, (none : Option Nat) = some e ∧
          Processes_kill [⟨50, 8⟩] (fun _ => 0) none 8 2 =
            -((fun _ => (0 : Int)) e))) :=
  ⟨⟨by decide, by decide, by decide⟩,
    claim_C9_kill_einval_unreachable [⟨50, 8⟩] (fun _ => 0) none 8 2
      (by decide) (by decide) (by decide)⟩

lemma waitRetryLoop_append_eintr (pre rest : List HostWaitResult)
    (h : ∀ r ∈ pre, r = HostWaitResult.err hostEINTR) :
    waitRetryLoop (pre ++ rest) = waitRetryLoop rest := by
  induction pre with
  | nil => rfl
  | cons r pre ih =>
      have hr := h r (List.mem_cons_self r pre)
      subst hr
      simp only [List.cons_append, waitRetryLoop, if_pos rfl]
      exact ih (fun x hx => h x (List.mem_cons_of_mem _ hx))

/-- Claim C4: wait retries the host wait while it fails with EINTR; on a
non-EINTR failure it returns the negated translated errno without
writing a status; on success it translates the host pid through the
table, writes the encoded status, removes the pid exactly when the
encoded status is classified exited or signaled, and returns the MINIX
pid; a stop status (whose stop signal byte is nonzero) is classified
neither exited nor signaled, so stopped children stay in the table. -/
theorem claim_C4_wait_behaviour (tr : Nat → Int) (t : List ProcEntry) :
    (∀ pre rest, (∀ r ∈ pre, r = HostWaitResult.err hostEINTR) →
      Processes_wait tr (pre ++ rest) t = Processes_wait tr rest t) ∧
    (∀ e, e ≠ hostEINTR →
      Processes_wait tr [HostWaitResult.err e] t = some (-(tr e), t, none)) ∧
    (∀ results host_pid host_stat,
      waitRetryLoop results = some (.reaped host_pid host_stat) →
      Processes_wait tr results t =
        some (MINIXProcessForHostProcess t host_pid,
          (if MINIX_WIFEXITED (MINIXStatForHostStat host_stat) ||
              MINIX_WIFSIGNALED (MINIXStatForHostStat host_stat) then
            RemoveMINIXProcess t (MINIXProcessForHostProcess t host_pid)
          else t),
          some (MINIXStatForHostStat host_stat).raw)) ∧
    (∀ stopsig, stopsig % 256 ≠ 0 →
      (MINIX_WIFEXITED (MINIXStatForHostStat (.stopped stopsig)) ||
        MINIX_WIFSIGNALED (MINIXStatForHostStat (.stopped stopsig))) =
        false) := by
  refine ⟨?_, ?_, ?_, ?_⟩
  · intro pre rest h
    unfold Processes_wait
    rw [waitRetryLoop_append_eintr pre rest h]
  · intro e he
    unfold Processes_wait
    simp only [waitRetryLoop, if_neg he]
  · intro results host_pid host_stat h
    unfold Processes_wait
    rw [h]
  · intro stopsig h
    simp only [MINIXStatForHostStat, MINIX_WIFEXITED, MINIX_WIFSIGNALED,
      Bool.or_eq_false_iff]
    constructor
    · decide
    · simp only [beq_eq_false_iff_ne, ne_eq]
      omega

/-- Witness for C4: two EINTR results, then a successful reap of an
exited child; plus the error and stop cases at concrete inputs. -/
theorem claim_C4_wait_behaviour_witness :
    ((∀ r ∈ [HostWaitResult.err hostEINTR, HostWaitResult.err hostEINTR],
        r = HostWaitResult.err hostEINTR) ∧
      Processes_wait (fun e => (e : Int))
        ([HostWaitResult.err hostEINTR, HostWaitResult.err hostEINTR] ++
          [HostWaitResult.reaped 50 (.exited 42)]) [⟨50, 9⟩] =
        Processes_wait (fun e => (e : Int))
          [HostWaitResult.reaped 50 (.exited 42)] [⟨50, 9⟩]) ∧
    ((5 : Nat) ≠ hostEINTR ∧
      Processes_wait (fun e => (e : Int)) [HostWaitResult.err 5] [⟨50, 9⟩] =
        some (-(((5 : Nat) : Int)), [⟨50, 9⟩], none)) ∧
    (waitRetryLoop [HostWaitResult.reaped 50 (.exited 42)] =
        some (.reaped 50 (.exited 42)) ∧
      Processes_wait (fun e => (e : Int))
        [HostWaitResult.reaped 50 (.exited 42)] [⟨50, 9⟩] =
        some (MINIXProcessForHostProcess [⟨50, 9⟩] 50,
          (if MINIX_WIFEXITED (MINIXStatForHostStat (.exited 42)) ||
              MINIX_WIFSIGNALED (MINIXStatForHostStat (.exited 42)) then
            RemoveMINIXProcess [⟨50, 9⟩]
              (MINIXProcessForHostProcess [⟨50, 9⟩] 50)
          else [⟨50, 9⟩]),
          some (MINIXStatForHostStat (.exited 42)).raw)) ∧
    ((19 : Nat) % 256 ≠ 0 ∧
      (MINIX_WIFEXITED (MINIXStatForHostStat (.stopped 19)) ||
        MINIX_WIFSIGNALED (MINIXStatForHostStat (.stopped 19))) = false) :=
  ⟨⟨by decide,
      (claim_C4_wait_behaviour (fun e => (e : Int)) [⟨50, 9⟩]).1
        [HostWaitResult.err hostEINTR, HostWaitResult.err hostEINTR]
        [HostWaitResult.reaped 50 (.exited 42)] (by decide)⟩,
    ⟨by decide,
      (claim_C4_wait_behaviour (fun e => (e : Int)) [⟨50, 9⟩]).2.1 5
        (by decide)⟩,
    ⟨by decide,
      (claim_C4_wait_behaviour (fun e => (e : Int)) [⟨50, 9⟩]).2.2.1
        [HostWaitResult.reaped 50 (.exited 42)] 50 (.exited 42) (by decide)⟩,
    ⟨by decide,
      (claim_C4_wait_behaviour (fun e => (e : Int)) [⟨50, 9⟩]).2.2.2 19
        (by decide)⟩⟩

/-- Counterexample to claim C6 as stated: exec_host called with argc=2
and argv = [prog, a] marshals argc = 1 (the first pointer-block word,
equivalently the first four region bytes are big-endian 1, not 2),
because ExecuteWithHostParams drops argv[0] before marshalling. -/
theorem claim_C6_counterexample :
    (ExecuteWithHostParams 4096 2 s6_argv s6_envp).1.headD 0 = 1 ∧
    (marshalledRegion (ExecuteWithHostParams 4096 2 s6_argv s6_envp)).take 4 =
      be32 1 ∧
    be32 1 ≠ be32 2 := by
  decide

/-- Claim C6 as amended: exec_host with argc=2, argv=[prog, a], envp =
[PATH=/, MINIX_HOME=/u] marshals (at any stack base) argc = 1, one argv
pointer whose string is a, a NULL slot, one envp pointer whose string is
HOME=/u (the MINIX_ prefix stripped), and a final NULL slot; the two
pointers address content offsets 0 and 4 of the content block that
follows the 20-byte pointer block. -/
theorem claim_C6_amended_marshalling (stack_base : Nat) :
    (ExecuteWithHostParams stack_base 2 s6_argv s6_envp).1 =
      [1, stack_base + 20, 0, stack_base + 24, 0] ∧
    (ExecuteWithHostParams stack_base 2 s6_argv s6_envp).2 =
      [97, 0, 0, 0, 72, 79, 77, 69, 61, 47, 117, 0, 0, 0, 0, 0] ∧
    stringAt (ExecuteWithHostParams stack_base 2 s6_argv s6_envp).2
      (stack_base + 20 - (stack_base + 20)) = [97] ∧
    stringAt (ExecuteWithHostParams stack_base 2 s6_argv s6_envp).2
      (stack_base + 24 - (stack_base + 20)) =
      [72, 79, 77, 69, 61, 47, 117] := by
  have h1 : (ExecuteWithHostParams stack_base 2 s6_argv s6_envp).1 =
      [1, stack_base + 20 + 0, 0, stack_base + 20 + 4, 0] := rfl
  have h2 : (ExecuteWithHostParams stack_base 2 s6_argv s6_envp).2 =
      [97, 0, 0, 0, 72, 79, 77, 69, 61, 47, 117, 0, 0, 0, 0, 0] := rfl
  refine ⟨?_, h2, ?_, ?_⟩
  · rw [h1]
  · rw [h2]
    have hoff : stack_base + 20 - (stack_base + 20) = 0 := by omega
    rw [hoff]
    decide
  · rw [h2]
    have hoff : stack_base + 24 - (stack_base + 20) = 4 := by omega
    rw [hoff]
    decide

end MINIXCompat
